import Mathlib

/-!
# Verification of `src/organizer.py` (FileOrganizer)

A shallow embedding of the core of `organizer.py`:
the category table, the per-entry organize loop (`organize_files`),
the space-saved computation, and the undo engine (`undo_organization`).

Modelling conventions:
  * A directory entry is an `Entry` carrying the observable facts the code
    inspects: its name, byte size, whether it is a directory, the outcome of
    `get_file_hash` (`none` models an `IOError` raised while hashing,
    `some h` the hex digest), and whether the single `shutil.move` the loop
    may attempt for it succeeds (`moveOk`).
  * `datetime.now()` is modelled by `Config.clock : Nat → String` together
    with a call counter in the loop state: the n-th call returns `clock n`.
  * Python exceptions escaping `organize_files` are modelled by
    `Except PyErr`; the filesystem/log side effects performed before the
    exception are kept in the returned `LoopState`.
  * Python `dict` (insertion-ordered) is modelled by an association list;
    `dict.values()` iterates in insertion order.
-/

namespace FileOrganizer

/-- Python exceptions relevant to `organize_files`:
`IOError` (raised by `get_file_hash`), `ValueError` (tuple-unpacking a string
whose length is not 2), `TypeError` (`int + str`). -/
inductive PyErr where
  | ioError
  | valueError
  | typeError
deriving DecidableEq

/-- The `CATEGORIES` table of `organizer.py`, in declaration order.
"Others" deliberately has an empty extension list. -/
def CATEGORIES : List (String × List String) :=
  [ ("Images", [".jpg", ".jpeg", ".png", ".gif", ".webp", ".bmp", ".tiff", ".svg", ".heic"]),
    ("Documents", [".pdf", ".docx", ".doc", ".txt", ".rtf", ".xlsx", ".xls", ".pptx", ".ppt", ".md", ".odt"]),
    ("Audio", [".mp3", ".wav", ".flac", ".aac", ".ogg", ".m4a", ".wma"]),
    ("Videos", [".mp4", ".mov", ".avi", ".mkv", ".flv", ".wmv", ".mpeg", ".webm", ".3gp"]),
    ("Code", [".py", ".js", ".html", ".css", ".java", ".cpp", ".c", ".php", ".json", ".xml", ".yml", ".sql"]),
    ("Archives", [".zip", ".rar", ".7z", ".tar", ".gz", ".bz2"]),
    ("Executables", [".exe", ".msi", ".dmg", ".pkg", ".app", ".bat", ".sh", ".deb", ".rpm"]),
    ("Design", [".psd", ".ai", ".xd", ".sketch", ".fig", ".indd"]),
    ("Data", [".csv", ".tsv", ".db", ".sqlite", ".parquet", ".feather"]),
    ("Others", []) ]

/-- Python `str.lower()` restricted to the per-code-point lowering Lean's
`Char.toLower` performs (adequate for the ASCII extension strings compared
against the table). -/
def pyLower (s : String) : String := ⟨s.data.map Char.toLower⟩

/-- Index of the rightmost `'.'` in a character list (Python `str.rfind('.')`
restricted to found/not-found plus position). -/
def lastDotIdx : List Char → Option Nat
  | [] => none
  | c :: cs =>
    match lastDotIdx cs with
    | some i => some (i + 1)
    | none => if c = '.' then some 0 else none

/-- Python `PurePath(name).suffix`: with `i = name.rfind('.')`, the result is
`name[i:]` when `0 < i < len(name) - 1` and `""` otherwise. -/
def pySuffix (s : String) : String :=
  let cs := s.data
  match lastDotIdx cs with
  | some i => if 0 < i ∧ i < cs.length - 1 then ⟨cs.drop i⟩ else ""
  | none => ""

/-- The `for category, extensions in CATEGORIES.items()` scan of
`organize_files`: the first category whose extension list contains the
lowercased suffix ("Others" never matches: its list is empty). -/
def findCategory (ext : String) : Option String :=
  (CATEGORIES.find? (fun p => p.2.contains ext)).map (·.1)

/-- The overall classification `organize_files` implements: the category scan,
falling through to the `Others` branch when no category matched. -/
def classify (ext : String) : String := (findCategory ext).getD "Others"

/-- One directory entry as seen by the organize loop. -/
structure Entry where
  name : String
  size : Nat
  isDir : Bool
  /-- Outcome of `get_file_hash`: `none` models an `IOError` raised while
  opening/reading the file, `some h` the digest. -/
  hashResult : Option String
  /-- Whether the one `shutil.move` attempted for this entry succeeds. -/
  moveOk : Bool
deriving DecidableEq

/-- Session-independent inputs of `organize_files`. -/
structure Config where
  targetPath : String
  /-- `log_file.name` (basename of the configured log path). -/
  logName : String
  /-- The n-th `datetime.now().isoformat()` of the session. -/
  clock : Nat → String

/-- One CSV row of the move log (header
`timestamp,original_path,destination,file_hash,file_size`). -/
structure MoveRecord where
  timestamp : String
  original_path : String
  destination : String
  file_hash : String
  file_size : Nat
deriving DecidableEq

/-- The mutable state of the organize loop: the local counters of
`organize_files` plus the observable log growth and the `datetime.now()`
call counter. -/
structure LoopState where
  fileCount : Nat
  counts : List (String × Nat)
  originalSize : Nat
  duplicateCount : Nat
  /-- `seen_hashes`: digest → first seen `item.name`, in insertion order. -/
  seenHashes : List (String × String)
  /-- Rows appended to the log so far, in order. -/
  log : List MoveRecord
  clockIdx : Nat
deriving DecidableEq

/-- State at the top of `organize_files`. -/
def initState : LoopState :=
  { fileCount := 0, counts := [], originalSize := 0, duplicateCount := 0,
    seenHashes := [], log := [], clockIdx := 0 }

/-- `category_counts[category] += 1` on a `defaultdict(int)`: an absent key is
appended with value 1, a present key is bumped in place. -/
def incrCount : List (String × Nat) → String → List (String × Nat)
  | [], k => [(k, 1)]
  | (k', v) :: rest, k =>
    if k' = k then (k', v + 1) :: rest else (k', v) :: incrCount rest k

/-- The `continue` guard of the loop: directories, hidden files, the default
log name, and the configured log basename are skipped. -/
def entrySkipped (cfg : Config) (e : Entry) : Bool :=
  e.isDir || List.isPrefixOf ['.'] e.name.data || e.name == "organization_log.csv"
    || e.name == cfg.logName

/-- The row `organize_files` appends after a successful move. -/
def mkRecord (cfg : Config) (idx : Nat) (e : Entry) (h cat : String) : MoveRecord :=
  { timestamp := cfg.clock idx,
    original_path := cfg.targetPath ++ "/" ++ e.name,
    destination := cfg.targetPath ++ "/" ++ cat ++ "/" ++ e.name,
    file_hash := h,
    file_size := e.size }

/-- The `try: shutil.move(...) ... except` block shared (textually duplicated)
by the matched-category branch and the `Others` branch: on success increment
`file_count` and the per-category counter, append one row stamped with a fresh
`datetime.now()`; on failure change nothing and continue. -/
def attemptMove (cfg : Config) (st : LoopState) (e : Entry) (h cat : String) : LoopState :=
  if e.moveOk then
    { st with
      fileCount := st.fileCount + 1,
      counts := incrCount st.counts cat,
      log := st.log ++ [mkRecord cfg st.clockIdx e h cat],
      clockIdx := st.clockIdx + 1 }
  else
    st

/-- The duplicate check: a digest already in `seen_hashes` bumps
`duplicate_count` (the duplicate is still processed); a fresh digest is
recorded with the current `item.name` as first seen. -/
def noteHash (st : LoopState) (e : Entry) (h : String) : LoopState :=
  if (st.seenHashes.lookup h).isSome then
    { st with duplicateCount := st.duplicateCount + 1 }
  else
    { st with seenHashes := st.seenHashes ++ [(h, e.name)] }

/-- The body of `for item in target_path.iterdir()`. The second component is
`some .ioError` when `get_file_hash` raised (uncaught, so the caller aborts);
the first component is the state reached up to that point. -/
def processEntry (cfg : Config) (st : LoopState) (e : Entry) : LoopState × Option PyErr :=
  if entrySkipped cfg e then
    (st, none)
  else
    let st1 := { st with originalSize := st.originalSize + e.size }
    match e.hashResult with
    | none => (st1, some PyErr.ioError)
    | some h =>
      let st2 := noteHash st1 e h
      match findCategory (pyLower (pySuffix e.name)) with
      | some cat => (attemptMove cfg st2 e h cat, none)
      | none => (attemptMove cfg st2 e h "Others", none)

/-- The whole entry loop. An uncaught exception stops the iteration and is
reported in the second component, keeping the side effects performed so far. -/
def processEntries (cfg : Config) : List Entry → LoopState → LoopState × Option PyErr
  | [], st => (st, none)
  | e :: rest, st =>
    match processEntry cfg st e with
    | (st1, none) => processEntries cfg rest st1
    | (st1, some err) => (st1, some err)

/-- Python tuple unpacking `hash, size = v` where `v` is a `str`: iterating the
string must yield exactly two items (two one-character strings), otherwise
`ValueError`. -/
def strUnpack2 (s : String) : Except PyErr (Char × Char) :=
  match s.data with
  | [a, b] => Except.ok (a, b)
  | _ => Except.error PyErr.valueError

/-- Python `int + str`: always `TypeError`. -/
def pyAddIntStr (_ : Int) (_ : Char) : Except PyErr Int :=
  Except.error PyErr.typeError

/-- `sum(size for hash, size in seen_hashes.values())`: fold the values
(filenames), unpacking each into `(hash, size)` and adding `size` to the
integer accumulator. -/
def sumSeenValues (vals : List String) : Except PyErr Int :=
  vals.foldlM
    (fun acc v => do
      let (_h, s) ← strUnpack2 v
      pyAddIntStr acc s)
    (0 : Int)

/-- The tuple `organize_files` returns on normal completion. -/
structure OrganizeResult where
  filesMoved : Nat
  categoryCounts : List (String × Nat)
  duplicateCount : Nat
  spaceSaved : Int
deriving DecidableEq

/-- `organize_files target_path log_file` over the entries of the target
directory: run the loop, then compute `space_saved` and return the four
aggregates. The first component records the observable loop effects even when
the call raises. -/
def organize_files (cfg : Config) (entries : List Entry) :
    LoopState × Except PyErr OrganizeResult :=
  match processEntries cfg entries initState with
  | (st, some e) => (st, Except.error e)
  | (st, none) =>
    match sumSeenValues (st.seenHashes.map (·.2)) with
    | Except.error e => (st, Except.error e)
    | Except.ok uniqueSize =>
      (st, Except.ok
        { filesMoved := st.fileCount,
          categoryCounts := st.counts,
          duplicateCount := st.duplicateCount,
          spaceSaved := (st.originalSize : Int) - uniqueSize })

/-- Python `max` over the non-empty collection of timestamps: keeps the first
element among equals, lexicographic (code-point) comparison. -/
def maxTimestamp : List String → String
  | [] => ""
  | t :: ts => ts.foldl (fun a b => if a < b then b else a) t

/-- The restore loop of `undo_organization`: attempt each record in order
(`moveOk i` is whether the i-th `shutil.move` back succeeds), counting
successes and skipping failures. -/
def undoLoop (moveOk : Nat → Bool) : List MoveRecord → Nat → Nat
  | [], _ => 0
  | _ :: rest, i => (if moveOk i then 1 else 0) + undoLoop moveOk rest (i + 1)

/-- Result of `undo_organization` together with the filesystem operations it
attempted (`attempted` lists the records whose destination→original move was
tried, in order; an empty list means no mutation at all). -/
structure UndoResult where
  restoredCount : Nat
  attempted : List MoveRecord
deriving DecidableEq

/-- `undo_organization log_file`. `none` models a missing log file; `some rows`
the data rows read back. Grouping by timestamp with an insertion-ordered
`defaultdict(list)` and indexing at the maximal key yields exactly the
subsequence of rows carrying the maximal timestamp, which is how the selected
session is written here. -/
def undo_organization (moveOk : Nat → Bool) :
    Option (List MoveRecord) → UndoResult
  | none => { restoredCount := 0, attempted := [] }
  | some [] => { restoredCount := 0, attempted := [] }
  | some (m :: ms) =>
    let moves := m :: ms
    let latest := maxTimestamp (moves.map (·.timestamp))
    let latestMoves := moves.filter (fun r => r.timestamp == latest)
    { restoredCount := undoLoop moveOk latestMoves 0,
      attempted := latestMoves }

/-- Whether the loop actually moves this entry: it is not skipped, its digest
is computed, and its single `shutil.move` succeeds. -/
def entryMoveSuccess (cfg : Config) (e : Entry) : Bool :=
  !entrySkipped cfg e && e.hashResult.isSome && e.moveOk

/-- Total of a per-category counter table. -/
def countsSum (l : List (String × Nat)) : Nat := (l.map (·.2)).sum

/-! ## Concrete fixtures used to exercise the definitions -/

/-- Two successive `datetime.now().isoformat()` results of one session (the
second call lands a few hundred microseconds after the first). -/
def tick : Nat → String := fun n =>
  if n = 0 then "2024-05-01T09:00:00.000102" else "2024-05-01T09:00:00.000857"

def cfgA : Config :=
  { targetPath := "/home/u/Downloads", logName := "organization_log.csv", clock := tick }

def entTxt : Entry :=
  { name := "a.txt", size := 3, isDir := false, hashResult := some "d41d8cd9", moveOk := true }

def entJpg : Entry :=
  { name := "b.jpg", size := 4, isDir := false, hashResult := some "9e107d9d", moveOk := true }

def entNotes : Entry :=
  { name := "notes.txt", size := 20, isDir := false, hashResult := some "aa11bb22", moveOk := true }

def entBad : Entry :=
  { name := "bad.txt", size := 5, isDir := false, hashResult := none, moveOk := true }

def entLocked : Entry :=
  { name := "locked.pdf", size := 7, isDir := false, hashResult := some "cc33dd44", moveOk := false }

def entOdd : Entry :=
  { name := "archive.zz", size := 5, isDir := false, hashResult := some "ee55ff66", moveOk := true }

def recMon : MoveRecord :=
  { timestamp := "2024-04-29T08:00:00.000001",
    original_path := "/home/u/Downloads/x.txt",
    destination := "/home/u/Downloads/Documents/x.txt",
    file_hash := "aaaa", file_size := 1 }

def recTue1 : MoveRecord :=
  { timestamp := "2024-04-30T08:00:00.000001",
    original_path := "/home/u/Downloads/y.jpg",
    destination := "/home/u/Downloads/Images/y.jpg",
    file_hash := "bbbb", file_size := 2 }

def recTue2 : MoveRecord :=
  { timestamp := "2024-04-30T08:00:00.000001",
    original_path := "/home/u/Downloads/z.mp3",
    destination := "/home/u/Downloads/Audio/z.mp3",
    file_hash := "cccc", file_size := 3 }

/-- The aggregates `organize_files` returns on an empty/fully skipped
directory. -/
def outEmpty : OrganizeResult :=
  { filesMoved := 0, categoryCounts := [], duplicateCount := 0, spaceSaved := 0 }

end FileOrganizer

deriving instance DecidableEq for Except


namespace FileOrganizer

/-! ## Structural lemmas about one loop iteration -/

@[simp] theorem noteHash_fileCount (st : LoopState) (e : Entry) (h : String) :
    (noteHash st e h).fileCount = st.fileCount := by
  unfold noteHash; split <;> rfl

@[simp] theorem noteHash_counts (st : LoopState) (e : Entry) (h : String) :
    (noteHash st e h).counts = st.counts := by
  unfold noteHash; split <;> rfl

@[simp] theorem noteHash_log (st : LoopState) (e : Entry) (h : String) :
    (noteHash st e h).log = st.log := by
  unfold noteHash; split <;> rfl

@[simp] theorem noteHash_clockIdx (st : LoopState) (e : Entry) (h : String) :
    (noteHash st e h).clockIdx = st.clockIdx := by
  unfold noteHash; split <;> rfl

@[simp] theorem noteHash_originalSize (st : LoopState) (e : Entry) (h : String) :
    (noteHash st e h).originalSize = st.originalSize := by
  unfold noteHash; split <;> rfl

@[simp] theorem attemptMove_seenHashes (cfg : Config) (st : LoopState) (e : Entry)
    (h cat : String) : (attemptMove cfg st e h cat).seenHashes = st.seenHashes := by
  unfold attemptMove; split <;> rfl

@[simp] theorem attemptMove_originalSize (cfg : Config) (st : LoopState) (e : Entry)
    (h cat : String) : (attemptMove cfg st e h cat).originalSize = st.originalSize := by
  unfold attemptMove; split <;> rfl

@[simp] theorem attemptMove_duplicateCount (cfg : Config) (st : LoopState) (e : Entry)
    (h cat : String) : (attemptMove cfg st e h cat).duplicateCount = st.duplicateCount := by
  unfold attemptMove; split <;> rfl

theorem attemptMove_of_moveOk_false (cfg : Config) (st : LoopState) (e : Entry)
    (h cat : String) (hmv : e.moveOk = false) : attemptMove cfg st e h cat = st := by
  unfold attemptMove; rw [hmv]; rfl

theorem attemptMove_of_moveOk_true (cfg : Config) (st : LoopState) (e : Entry)
    (h cat : String) (hmv : e.moveOk = true) :
    attemptMove cfg st e h cat =
      { st with
        fileCount := st.fileCount + 1,
        counts := incrCount st.counts cat,
        log := st.log ++ [mkRecord cfg st.clockIdx e h cat],
        clockIdx := st.clockIdx + 1 } := by
  unfold attemptMove; rw [hmv]; rfl

theorem processEntry_skipped (cfg : Config) (st : LoopState) (e : Entry)
    (hsk : entrySkipped cfg e = true) : processEntry cfg st e = (st, none) := by
  unfold processEntry; rw [hsk]; rfl

theorem processEntry_hashFail (cfg : Config) (st : LoopState) (e : Entry)
    (hsk : entrySkipped cfg e = false) (hh : e.hashResult = none) :
    processEntry cfg st e =
      ({ st with originalSize := st.originalSize + e.size }, some PyErr.ioError) := by
  unfold processEntry; rw [hsk, hh]; rfl

/-- Normal form of a non-skipped, successfully hashed entry: the duplicate
check runs, then the move is attempted toward the category the scan-or-else
"Others" fallback selects, i.e. `classify` of the lowercased suffix. -/
theorem processEntry_hashed (cfg : Config) (st : LoopState) (e : Entry) (h : String)
    (hsk : entrySkipped cfg e = false) (hh : e.hashResult = some h) :
    processEntry cfg st e =
      (attemptMove cfg (noteHash { st with originalSize := st.originalSize + e.size } e h)
        e h (classify (pyLower (pySuffix e.name))), none) := by
  unfold processEntry
  rw [hsk, hh]
  cases hfc : findCategory (pyLower (pySuffix e.name)) with
  | some cat => simp [classify, hfc]
  | none => simp [classify, hfc]

end FileOrganizer

namespace FileOrganizer

/-! ## The loop as a whole -/

theorem processEntries_cons (cfg : Config) (e : Entry) (rest : List Entry) (st : LoopState) :
    processEntries cfg (e :: rest) st =
      match processEntry cfg st e with
      | (st1, none) => processEntries cfg rest st1
      | (st1, some err) => (st1, some err) := rfl

theorem processEntries_cons_ok (cfg : Config) (e : Entry) (rest : List Entry)
    (st st1 : LoopState) (hpe : processEntry cfg st e = (st1, none)) :
    processEntries cfg (e :: rest) st = processEntries cfg rest st1 := by
  rw [processEntries_cons, hpe]

theorem processEntries_cons_err (cfg : Config) (e : Entry) (rest : List Entry)
    (st st1 : LoopState) (err : PyErr) (hpe : processEntry cfg st e = (st1, some err)) :
    processEntries cfg (e :: rest) st = (st1, some err) := by
  rw [processEntries_cons, hpe]

/-- `seen_hashes` only grows along one iteration. -/
theorem seen_mono_processEntry (cfg : Config) (st : LoopState) (e : Entry) :
    ∃ t, (processEntry cfg st e).1.seenHashes = st.seenHashes ++ t := by
  cases hsk : entrySkipped cfg e with
  | true => exact ⟨[], by rw [processEntry_skipped cfg st e hsk]; simp⟩
  | false =>
    cases hh : e.hashResult with
    | none => exact ⟨[], by rw [processEntry_hashFail cfg st e hsk hh]; simp⟩
    | some h =>
      rw [processEntry_hashed cfg st e h hsk hh]
      unfold noteHash
      split
      · exact ⟨[], by simp⟩
      · exact ⟨[(h, e.name)], by simp⟩

/-- `seen_hashes` only grows along the loop. -/
theorem seen_mono_processEntries (cfg : Config) (es : List Entry) (st : LoopState) :
    ∃ t, (processEntries cfg es st).1.seenHashes = st.seenHashes ++ t := by
  induction es generalizing st with
  | nil => exact ⟨[], by simp [processEntries]⟩
  | cons e rest ih =>
    rcases hpe : processEntry cfg st e with ⟨st1, err⟩
    obtain ⟨t1, ht1⟩ := seen_mono_processEntry cfg st e
    rw [hpe] at ht1
    have ht1a : st1.seenHashes = st.seenHashes ++ t1 := ht1
    cases err with
    | none =>
      obtain ⟨t2, ht2⟩ := ih st1
      refine ⟨t1 ++ t2, ?_⟩
      rw [processEntries_cons_ok cfg e rest st st1 hpe, ht2, ht1a, List.append_assoc]
    | some err =>
      refine ⟨t1, ?_⟩
      rw [processEntries_cons_err cfg e rest st st1 err hpe]
      exact ht1a

/-- An iteration that completes without raising and leaves `seen_hashes` empty
did not touch the state at all (the entry was skipped). -/
theorem processEntry_noChange (cfg : Config) (st : LoopState) (e : Entry)
    (hok : (processEntry cfg st e).2 = none)
    (hseen : (processEntry cfg st e).1.seenHashes = []) :
    (processEntry cfg st e).1 = st := by
  cases hsk : entrySkipped cfg e with
  | true => rw [processEntry_skipped cfg st e hsk]
  | false =>
    cases hh : e.hashResult with
    | none =>
      rw [processEntry_hashFail cfg st e hsk hh] at hok
      exact absurd hok (by simp)
    | some h =>
      rw [processEntry_hashed cfg st e h hsk hh] at hseen
      simp only [attemptMove_seenHashes] at hseen
      unfold noteHash at hseen
      by_cases hlk :
          (({ st with originalSize := st.originalSize + e.size } : LoopState).seenHashes.lookup h).isSome
      · rw [if_pos hlk] at hseen
        simp only at hseen
        rw [hseen] at hlk
        simp [List.lookup] at hlk
      · rw [if_neg hlk] at hseen
        simp at hseen

/-- If the loop finishes without raising and ends with `seen_hashes` empty,
every entry was skipped: the final state is the initial one. -/
theorem processEntries_noChange (cfg : Config) (es : List Entry) (st : LoopState)
    (hok : (processEntries cfg es st).2 = none)
    (hseen : (processEntries cfg es st).1.seenHashes = []) :
    (processEntries cfg es st).1 = st := by
  induction es generalizing st with
  | nil => rfl
  | cons e rest ih =>
    rcases hpe : processEntry cfg st e with ⟨st1, err⟩
    cases err with
    | some err =>
      rw [processEntries_cons_err cfg e rest st st1 err hpe] at hok
      exact absurd hok (by simp)
    | none =>
      rw [processEntries_cons_ok cfg e rest st st1 hpe] at hok hseen ⊢
      have hrest := ih st1 hok hseen
      rw [hrest] at hseen ⊢
      have hchg : (processEntry cfg st e).1 = st := by
        apply processEntry_noChange cfg st e
        · rw [hpe]
        · rw [hpe]; exact hseen
      rw [hpe] at hchg
      exact hchg

/-- `strUnpack2` only ever raises `ValueError`. -/
theorem strUnpack2_error (s : String) (e : PyErr) (h : strUnpack2 s = Except.error e) :
    e = PyErr.valueError := by
  unfold strUnpack2 at h
  rcases s with ⟨cs⟩
  match cs with
  | [] => exact (Except.error.injEq _ _).mp h.symm
  | [a] => exact (Except.error.injEq _ _).mp h.symm
  | [a, b] => exact absurd h (by simp)
  | a :: b :: c :: t => exact (Except.error.injEq _ _).mp h.symm

/-- On any non-empty `seen_hashes.values()` the space-saved sum raises:
unpacking the first filename either fails (`ValueError`) or, when the name has
exactly two characters, the `int + str` addition fails (`TypeError`). -/
theorem sumSeenValues_cons (v : String) (vs : List String) :
    ∃ e, sumSeenValues (v :: vs) = Except.error e ∧
      (e = PyErr.valueError ∨ e = PyErr.typeError) := by
  unfold sumSeenValues
  simp only [List.foldlM]
  cases hv : strUnpack2 v with
  | ok p => exact ⟨PyErr.typeError, rfl, Or.inr rfl⟩
  | error e => exact ⟨e, rfl, Or.inl (strUnpack2_error v e hv)⟩

end FileOrganizer

namespace FileOrganizer

/-! ## Per-category counter invariants -/

theorem countsSum_nil : countsSum [] = 0 := rfl

theorem countsSum_cons (k : String) (v : Nat) (l : List (String × Nat)) :
    countsSum ((k, v) :: l) = v + countsSum l := by
  simp [countsSum]

theorem countsSum_incrCount (l : List (String × Nat)) (k : String) :
    countsSum (incrCount l k) = countsSum l + 1 := by
  induction l with
  | nil => rfl
  | cons p rest ih =>
    rcases p with ⟨k', v⟩
    unfold incrCount
    by_cases hk : k' = k
    · rw [if_pos hk, countsSum_cons, countsSum_cons]
      omega
    · rw [if_neg hk, countsSum_cons, countsSum_cons, ih]
      omega

theorem incrCount_pos (l : List (String × Nat)) (k : String)
    (h : ∀ p ∈ l, 1 ≤ p.2) : ∀ p ∈ incrCount l k, 1 ≤ p.2 := by
  induction l with
  | nil =>
    intro p hp
    simp only [incrCount, List.mem_singleton] at hp
    subst hp
    exact Nat.le_refl 1
  | cons q rest ih =>
    rcases q with ⟨k', v⟩
    intro p hp
    unfold incrCount at hp
    by_cases hk : k' = k
    · rw [if_pos hk] at hp
      rcases List.mem_cons.mp hp with h1 | h2
      · subst h1; omega
      · exact h p (List.mem_cons_of_mem _ h2)
    · rw [if_neg hk] at hp
      rcases List.mem_cons.mp hp with h1 | h2
      · subst h1; exact h (k', v) (List.mem_cons_self _ _)
      · exact ih (fun q hq => h q (List.mem_cons_of_mem _ hq)) p h2

/-- The counter bookkeeping the loop maintains: the per-category counters sum
to `file_count` and every recorded counter is positive. -/
def CountsInv (st : LoopState) : Prop :=
  countsSum st.counts = st.fileCount ∧ ∀ p ∈ st.counts, 1 ≤ p.2

theorem countsInv_attemptMove (cfg : Config) (st : LoopState) (e : Entry) (h cat : String)
    (hinv : CountsInv st) : CountsInv (attemptMove cfg st e h cat) := by
  cases hmv : e.moveOk with
  | false => rw [attemptMove_of_moveOk_false cfg st e h cat hmv]; exact hinv
  | true =>
    rw [attemptMove_of_moveOk_true cfg st e h cat hmv]
    constructor
    · show countsSum (incrCount st.counts cat) = st.fileCount + 1
      rw [countsSum_incrCount, hinv.1]
    · exact incrCount_pos st.counts cat hinv.2

theorem countsInv_processEntry (cfg : Config) (st : LoopState) (e : Entry)
    (hinv : CountsInv st) : CountsInv (processEntry cfg st e).1 := by
  cases hsk : entrySkipped cfg e with
  | true => rw [processEntry_skipped cfg st e hsk]; exact hinv
  | false =>
    cases hh : e.hashResult with
    | none => rw [processEntry_hashFail cfg st e hsk hh]; exact hinv
    | some h =>
      rw [processEntry_hashed cfg st e h hsk hh]
      apply countsInv_attemptMove
      constructor
      · show countsSum (noteHash _ e h).counts = (noteHash _ e h).fileCount
        rw [noteHash_counts, noteHash_fileCount]
        exact hinv.1
      · rw [noteHash_counts]
        exact hinv.2

theorem countsInv_processEntries (cfg : Config) (es : List Entry) (st : LoopState)
    (hinv : CountsInv st) : CountsInv (processEntries cfg es st).1 := by
  induction es generalizing st with
  | nil => exact hinv
  | cons e rest ih =>
    rcases hpe : processEntry cfg st e with ⟨st1, err⟩
    have hst1 : CountsInv st1 := by
      have := countsInv_processEntry cfg st e hinv
      rw [hpe] at this
      exact this
    cases err with
    | none => rw [processEntries_cons_ok cfg e rest st st1 hpe]; exact ih st1 hst1
    | some err => rw [processEntries_cons_err cfg e rest st st1 err hpe]; exact hst1

/-! ## Log growth versus `file_count` -/

theorem logLen_processEntry (cfg : Config) (st : LoopState) (e : Entry) :
    (processEntry cfg st e).1.log.length + st.fileCount =
      (processEntry cfg st e).1.fileCount + st.log.length := by
  cases hsk : entrySkipped cfg e with
  | true =>
    rw [processEntry_skipped cfg st e hsk]
    exact Nat.add_comm _ _
  | false =>
    cases hh : e.hashResult with
    | none =>
      rw [processEntry_hashFail cfg st e hsk hh]
      exact Nat.add_comm _ _
    | some h =>
      rw [processEntry_hashed cfg st e h hsk hh]
      cases hmv : e.moveOk with
      | false =>
        rw [attemptMove_of_moveOk_false cfg _ e h _ hmv]
        simp only [noteHash_log, noteHash_fileCount]
        exact Nat.add_comm _ _
      | true =>
        rw [attemptMove_of_moveOk_true cfg _ e h _ hmv]
        show ((noteHash _ e h).log ++ [_]).length + st.fileCount =
          (noteHash _ e h).fileCount + 1 + st.log.length
        simp only [noteHash_log, noteHash_fileCount, List.length_append, List.length_cons,
          List.length_nil]
        omega

theorem logLen_processEntries (cfg : Config) (es : List Entry) (st : LoopState) :
    (processEntries cfg es st).1.log.length + st.fileCount =
      (processEntries cfg es st).1.fileCount + st.log.length := by
  induction es generalizing st with
  | nil => exact Nat.add_comm _ _
  | cons e rest ih =>
    rcases hpe : processEntry cfg st e with ⟨st1, err⟩
    have hd := logLen_processEntry cfg st e
    rw [hpe] at hd
    simp only at hd
    cases err with
    | none =>
      rw [processEntries_cons_ok cfg e rest st st1 hpe]
      have := ih st1
      omega
    | some err =>
      rw [processEntries_cons_err cfg e rest st st1 err hpe]
      exact hd

/-- A successful move appends exactly the one expected row and bumps
`file_count` by one. -/
theorem processEntry_success_log (cfg : Config) (st : LoopState) (e : Entry) (h : String)
    (hsk : entrySkipped cfg e = false) (hh : e.hashResult = some h) (hmv : e.moveOk = true) :
    (processEntry cfg st e).1.log =
      st.log ++ [mkRecord cfg st.clockIdx e h (classify (pyLower (pySuffix e.name)))]
    ∧ (processEntry cfg st e).1.fileCount = st.fileCount + 1 := by
  rw [processEntry_hashed cfg st e h hsk hh]
  rw [attemptMove_of_moveOk_true cfg _ e h _ hmv]
  constructor
  · show (noteHash _ e h).log ++ [mkRecord cfg (noteHash _ e h).clockIdx e h _] = _
    rw [noteHash_log, noteHash_clockIdx]
  · show (noteHash _ e h).fileCount + 1 = st.fileCount + 1
    rw [noteHash_fileCount]

/-- An entry whose move does not succeed (skipped, hash failure, or failed
move) appends no row and leaves `file_count` unchanged. -/
theorem processEntry_failure_log (cfg : Config) (st : LoopState) (e : Entry)
    (hfail : entryMoveSuccess cfg e = false) :
    (processEntry cfg st e).1.log = st.log
    ∧ (processEntry cfg st e).1.fileCount = st.fileCount := by
  cases hsk : entrySkipped cfg e with
  | true => rw [processEntry_skipped cfg st e hsk]; exact ⟨rfl, rfl⟩
  | false =>
    cases hh : e.hashResult with
    | none => rw [processEntry_hashFail cfg st e hsk hh]; exact ⟨rfl, rfl⟩
    | some h =>
      have hmv : e.moveOk = false := by
        unfold entryMoveSuccess at hfail
        rw [hsk, hh] at hfail
        simpa using hfail
      rw [processEntry_hashed cfg st e h hsk hh]
      rw [attemptMove_of_moveOk_false cfg _ e h _ hmv]
      exact ⟨noteHash_log _ e h, noteHash_fileCount _ e h⟩

end FileOrganizer

namespace FileOrganizer

/-! ## `organize_files` unfolding helpers -/

theorem organize_files_loop_err (cfg : Config) (entries : List Entry) (st : LoopState)
    (e : PyErr) (hpe : processEntries cfg entries initState = (st, some e)) :
    organize_files cfg entries = (st, Except.error e) := by
  unfold organize_files
  rw [hpe]

theorem organize_files_loop_ok (cfg : Config) (entries : List Entry) (st : LoopState)
    (hpe : processEntries cfg entries initState = (st, none)) :
    organize_files cfg entries =
      match sumSeenValues (st.seenHashes.map (·.2)) with
      | Except.error e => (st, Except.error e)
      | Except.ok uniqueSize =>
        (st, Except.ok
          { filesMoved := st.fileCount,
            categoryCounts := st.counts,
            duplicateCount := st.duplicateCount,
            spaceSaved := (st.originalSize : Int) - uniqueSize }) := by
  unfold organize_files
  rw [hpe]

theorem organize_files_sum_err (cfg : Config) (entries : List Entry) (st : LoopState)
    (e : PyErr) (hpe : processEntries cfg entries initState = (st, none))
    (hs : sumSeenValues (st.seenHashes.map (·.2)) = Except.error e) :
    organize_files cfg entries = (st, Except.error e) := by
  rw [organize_files_loop_ok cfg entries st hpe, hs]

theorem organize_files_sum_ok (cfg : Config) (entries : List Entry) (st : LoopState)
    (u : Int) (hpe : processEntries cfg entries initState = (st, none))
    (hs : sumSeenValues (st.seenHashes.map (·.2)) = Except.ok u) :
    organize_files cfg entries =
      (st, Except.ok
        { filesMoved := st.fileCount,
          categoryCounts := st.counts,
          duplicateCount := st.duplicateCount,
          spaceSaved := (st.originalSize : Int) - u }) := by
  rw [organize_files_loop_ok cfg entries st hpe, hs]

/-- Inversion: a normal return means the loop finished without raising and the
space-saved sum succeeded, and ties the returned aggregates to the loop state. -/
theorem organize_files_ok_inv (cfg : Config) (entries : List Entry) (out : OrganizeResult)
    (h : (organize_files cfg entries).2 = Except.ok out) :
    ∃ u, processEntries cfg entries initState =
        ((organize_files cfg entries).1, none)
      ∧ sumSeenValues ((organize_files cfg entries).1.seenHashes.map (·.2)) = Except.ok u
      ∧ out =
        { filesMoved := (organize_files cfg entries).1.fileCount,
          categoryCounts := (organize_files cfg entries).1.counts,
          duplicateCount := (organize_files cfg entries).1.duplicateCount,
          spaceSaved := ((organize_files cfg entries).1.originalSize : Int) - u } := by
  rcases hpe : processEntries cfg entries initState with ⟨st, err⟩
  cases err with
  | some e =>
    rw [organize_files_loop_err cfg entries st e hpe] at h
    exact absurd h (by simp)
  | none =>
    cases hs : sumSeenValues (st.seenHashes.map (·.2)) with
    | error e =>
      rw [organize_files_sum_err cfg entries st e hpe hs] at h
      exact absurd h (by simp)
    | ok u =>
      have horg := organize_files_sum_ok cfg entries st u hpe hs
      rw [horg] at h ⊢
      refine ⟨u, rfl, hs, ?_⟩
      simpa using h.symm

/-! ## Lexicographic maximum of the timestamps -/

theorem foldl_max_mem (ts : List String) (a : String) :
    ts.foldl (fun x y => if x < y then y else x) a ∈ a :: ts := by
  induction ts generalizing a with
  | nil => simp
  | cons t ts ih =>
    simp only [List.foldl_cons]
    by_cases hlt : a < t
    · rw [if_pos hlt]
      rcases List.mem_cons.mp (ih t) with h1 | h2
      · rw [h1]
        exact List.mem_cons_of_mem _ (List.mem_cons_self _ _)
      · exact List.mem_cons_of_mem _ (List.mem_cons_of_mem _ h2)
    · rw [if_neg hlt]
      rcases List.mem_cons.mp (ih a) with h1 | h2
      · rw [h1]
        exact List.mem_cons_self _ _
      · exact List.mem_cons_of_mem _ (List.mem_cons_of_mem _ h2)

theorem foldl_max_ge (ts : List String) (a : String) :
    a ≤ ts.foldl (fun x y => if x < y then y else x) a
    ∧ ∀ x ∈ ts, x ≤ ts.foldl (fun x y => if x < y then y else x) a := by
  induction ts generalizing a with
  | nil => exact ⟨le_refl a, by simp⟩
  | cons t ts ih =>
    obtain ⟨h1, h2⟩ := ih (if a < t then t else a)
    have ha : a ≤ if a < t then t else a := by
      by_cases hlt : a < t
      · rw [if_pos hlt]; exact le_of_lt hlt
      · rw [if_neg hlt]
    have ht : t ≤ if a < t then t else a := by
      by_cases hlt : a < t
      · rw [if_pos hlt]
      · rw [if_neg hlt]; exact not_lt.mp hlt
    refine ⟨le_trans ha h1, ?_⟩
    intro x hx
    simp only [List.foldl_cons]
    rcases List.mem_cons.mp hx with h3 | h4
    · subst h3; exact le_trans ht h1
    · exact h2 x h4

theorem maxTimestamp_mem (t : String) (ts : List String) :
    maxTimestamp (t :: ts) ∈ t :: ts :=
  foldl_max_mem ts t

theorem maxTimestamp_ge (t : String) (ts : List String) :
    ∀ x ∈ t :: ts, x ≤ maxTimestamp (t :: ts) := by
  intro x hx
  rcases List.mem_cons.mp hx with h1 | h2
  · subst h1; exact (foldl_max_ge ts x).1
  · exact (foldl_max_ge ts t).2 x h2

/-! ## The undo loop count -/

theorem undoLoop_eq (moveOk : Nat → Bool) (l : List MoveRecord) :
    ∀ i, undoLoop moveOk l i = (List.range l.length).countP (fun j => moveOk (i + j)) := by
  induction l with
  | nil => intro i; rfl
  | cons r rest ih =>
    intro i
    show (if moveOk i then 1 else 0) + undoLoop moveOk rest (i + 1) = _
    rw [ih (i + 1)]
    simp only [List.length_cons, List.range_succ_eq_map, List.countP_cons, List.countP_map]
    have hfn : ((fun j => moveOk (i + j)) ∘ Nat.succ) = fun j => moveOk (i + 1 + j) := by
      funext j
      simp only [Function.comp]
      congr 1
      omega
    rw [hfn]
    by_cases hmi : moveOk i
    · simp [hmi, Nat.add_comm]
    · simp [hmi]

end FileOrganizer

namespace FileOrganizer

/-! ## Claim theorems -/

/-- C1: the claim says every `MoveRecord` of one Organize session carries one
shared timestamp captured at session start. The code instead calls
`datetime.now()` afresh for each appended row (lines 106 and 134 of
`organizer.py`): in a single session that moves `a.txt` and then `b.jpg`,
with the two `datetime.now()` calls landing on distinct microseconds, the two
rows of that one session carry different timestamp fields — contradicting the
claim (and the undo code's own comment that "each organization session has a
unique timestamp"). -/
theorem C1_session_rows_get_distinct_timestamps :
    (organize_files cfgA [entTxt, entJpg]).1.log.map (fun r => r.timestamp)
      = ["2024-05-01T09:00:00.000102", "2024-05-01T09:00:00.000857"]
    ∧ ("2024-05-01T09:00:00.000102" : String) ≠ "2024-05-01T09:00:00.000857" := by
  constructor
  · decide
  · decide

/-- C2: whenever the per-entry loop completes without raising and at least one
file was hashed (`seen_hashes` non-empty), the space-saved computation
`sum(size for hash, size in seen_hashes.values())` raises (`ValueError` or
`TypeError`) because the stored values are filename strings, so
`organize_files` never returns its aggregates; it returns normally only when
no file was hashed, and then `spaceSaved = 0`. -/
theorem C2_space_saved_computation_raises (cfg : Config) (entries : List Entry)
    (hloop : (processEntries cfg entries initState).2 = none) :
    ((processEntries cfg entries initState).1.seenHashes ≠ [] →
      ((organize_files cfg entries).2 = Except.error PyErr.valueError
        ∨ (organize_files cfg entries).2 = Except.error PyErr.typeError))
    ∧ (∀ out, (organize_files cfg entries).2 = Except.ok out →
      (processEntries cfg entries initState).1.seenHashes = [] ∧ out.spaceSaved = 0) := by
  have hpe : processEntries cfg entries initState =
      ((processEntries cfg entries initState).1, none) := by
    rw [← hloop]
  constructor
  · intro hne
    cases hsh : (processEntries cfg entries initState).1.seenHashes with
    | nil => exact absurd hsh hne
    | cons v vs =>
      have hmap : (processEntries cfg entries initState).1.seenHashes.map (fun x => x.2)
          = v.2 :: vs.map (fun x => x.2) := by rw [hsh, List.map_cons]
      obtain ⟨e, herr, hor⟩ := sumSeenValues_cons v.2 (vs.map (fun x => x.2))
      have horg := organize_files_sum_err cfg entries _ e hpe (by rw [hmap]; exact herr)
      rcases hor with h1 | h1
      · subst h1; left; rw [horg]
      · subst h1; right; rw [horg]
  · intro out hout
    obtain ⟨u, h1, h2, h3⟩ := organize_files_ok_inv cfg entries out hout
    have hfst : (processEntries cfg entries initState).1 = (organize_files cfg entries).1 :=
      congrArg Prod.fst h1
    have hseen0 : (processEntries cfg entries initState).1.seenHashes = [] := by
      cases hsh : (processEntries cfg entries initState).1.seenHashes with
      | nil => rfl
      | cons v vs =>
        rw [← hfst, hsh, List.map_cons] at h2
        obtain ⟨e, herr, _⟩ := sumSeenValues_cons v.2 (vs.map (fun x => x.2))
        rw [herr] at h2
        exact absurd h2 (by simp)
    refine ⟨hseen0, ?_⟩
    have hzero : (processEntries cfg entries initState).1 = initState :=
      processEntries_noChange cfg entries initState hloop hseen0
    have hu : u = 0 := by
      rw [← hfst, hseen0] at h2
      have h2a : (Except.ok (0 : Int) : Except PyErr Int) = Except.ok u := h2
      exact ((Except.ok.injEq _ _).mp h2a).symm
    rw [h3]
    show ((organize_files cfg entries).1.originalSize : Int) - u = 0
    rw [← hfst, hzero, hu]
    simp [initState]

theorem C2_witness :
    (organize_files cfgA [entOdd]).2 = Except.error PyErr.valueError
    ∨ (organize_files cfgA [entOdd]).2 = Except.error PyErr.typeError :=
  (C2_space_saved_computation_raises cfgA [entOdd] (by decide)).1 (by decide)

/-- C3: the claim (and the spec) says `spaceSavedBytes` is returned and equals
`totalOriginalSize` minus the first-seen sizes per digest — in particular `0`
for a session of one uniquely digested file. The code instead stores only the
filename in `seen_hashes` and then unpacks it as a `(hash, size)` pair, so on
the session that successfully moves the single 20-byte `notes.txt` it raises
`ValueError` at the space-saved line instead of returning `spaceSaved = 0`:
the documented return contract of `organize_files` is never met once a file
was hashed. -/
theorem C3_space_saved_raises_instead_of_value :
    (organize_files cfgA [entNotes]).1.fileCount = 1
    ∧ (organize_files cfgA [entNotes]).2 = Except.error PyErr.valueError := by
  constructor
  · decide
  · decide

/-- C4 (amended): digest-computation failure is NOT caught by `organize_files`
(line 79 sits outside any `try`): the `IOError` propagates, aborting the whole
session at that entry — the entry is not moved, and the remaining entries are
never processed (the result is independent of `rest`). -/
theorem C4_hash_error_aborts_session (cfg : Config) (st : LoopState) (e : Entry)
    (rest : List Entry) (hsk : entrySkipped cfg e = false) (hh : e.hashResult = none) :
    processEntries cfg (e :: rest) st =
      ({ st with originalSize := st.originalSize + e.size }, some PyErr.ioError) :=
  processEntries_cons_err cfg e rest st _ PyErr.ioError (processEntry_hashFail cfg st e hsk hh)

theorem C4_witness :
    entrySkipped cfgA entBad = false
    ∧ processEntries cfgA [entBad, entTxt] initState =
        ({ initState with originalSize := initState.originalSize + entBad.size },
          some PyErr.ioError) :=
  ⟨by decide, C4_hash_error_aborts_session cfgA initState entBad [entTxt] (by decide) rfl⟩

/-- C4 (counterexample to the claim as stated): `bad.txt` fails to hash while
`a.txt` follows it in the directory; the claim says the error is reported
per-entry and processing continues with `a.txt`. Instead the whole call raises
`IOError`, nothing is logged and no file is moved — the failure aborts the
session rather than skipping the entry. -/
theorem C4_counterexample :
    (organize_files cfgA [entBad, entTxt]).2 = Except.error PyErr.ioError
    ∧ (organize_files cfgA [entBad, entTxt]).1.log = []
    ∧ (organize_files cfgA [entBad, entTxt]).1.fileCount = 0 := by
  refine ⟨?_, ?_, ?_⟩ <;> decide

end FileOrganizer

namespace FileOrganizer

/-- C5: each successful move appends exactly one log row (the expected one),
each failed/skipped/unhashed entry appends none, and over a whole session the
number of appended rows equals `file_count`; on a normal return the reported
`filesMoved` equals the number of appended rows. -/
theorem C5_log_rows_match_files_moved (cfg : Config) (entries : List Entry) :
    ((processEntries cfg entries initState).1.log.length
        = (processEntries cfg entries initState).1.fileCount)
    ∧ (∀ st e h, entrySkipped cfg e = false → e.hashResult = some h → e.moveOk = true →
        (processEntry cfg st e).1.log =
          st.log ++ [mkRecord cfg st.clockIdx e h (classify (pyLower (pySuffix e.name)))]
        ∧ (processEntry cfg st e).1.fileCount = st.fileCount + 1)
    ∧ (∀ st e, entryMoveSuccess cfg e = false →
        (processEntry cfg st e).1.log = st.log
        ∧ (processEntry cfg st e).1.fileCount = st.fileCount)
    ∧ (∀ out, (organize_files cfg entries).2 = Except.ok out →
        out.filesMoved = (processEntries cfg entries initState).1.log.length) := by
  have hlen : (processEntries cfg entries initState).1.log.length
      = (processEntries cfg entries initState).1.fileCount := by
    have h := logLen_processEntries cfg entries initState
    simpa [initState] using h
  refine ⟨hlen, ?_, ?_, ?_⟩
  · intro st e h hsk hh hmv
    exact processEntry_success_log cfg st e h hsk hh hmv
  · intro st e hfail
    exact processEntry_failure_log cfg st e hfail
  · intro out hout
    obtain ⟨u, h1, h2, h3⟩ := organize_files_ok_inv cfg entries out hout
    have hfst : (processEntries cfg entries initState).1 = (organize_files cfg entries).1 :=
      congrArg Prod.fst h1
    rw [h3]
    show (organize_files cfg entries).1.fileCount = _
    rw [← hfst, hlen]

theorem C5_witness :
    ((processEntries cfgA [entTxt, entJpg] initState).1.log.length
        = (processEntries cfgA [entTxt, entJpg] initState).1.fileCount)
    ∧ ((processEntry cfgA initState entTxt).1.log =
          initState.log ++ [mkRecord cfgA initState.clockIdx entTxt "d41d8cd9"
            (classify (pyLower (pySuffix entTxt.name)))]
        ∧ (processEntry cfgA initState entTxt).1.fileCount = initState.fileCount + 1)
    ∧ ((processEntry cfgA initState entLocked).1.log = initState.log
        ∧ (processEntry cfgA initState entLocked).1.fileCount = initState.fileCount)
    ∧ (outEmpty.filesMoved
        = (processEntries cfgA ([] : List Entry) initState).1.log.length) :=
  ⟨(C5_log_rows_match_files_moved cfgA [entTxt, entJpg]).1,
   (C5_log_rows_match_files_moved cfgA [entTxt, entJpg]).2.1 initState entTxt "d41d8cd9"
     (by decide) rfl rfl,
   (C5_log_rows_match_files_moved cfgA [entTxt, entJpg]).2.2.1 initState entLocked (by decide),
   (C5_log_rows_match_files_moved cfgA ([] : List Entry)).2.2.2 outEmpty (by decide)⟩

/-- C6: with a non-empty log, undo attempts exactly the records whose
timestamp is the lexicographically maximal one (which is attained and bounds
every row's timestamp), in encountered order, and returns the number of
per-record restores that succeeded — failed restores are skipped, not
aborting. -/
theorem C6_undo_selects_latest_session (moveOk : Nat → Bool) (moves : List MoveRecord)
    (hne : moves ≠ []) :
    (undo_organization moveOk (some moves)).attempted
        = moves.filter
            (fun r => r.timestamp == maxTimestamp (moves.map (fun r => r.timestamp)))
    ∧ maxTimestamp (moves.map (fun r => r.timestamp)) ∈ moves.map (fun r => r.timestamp)
    ∧ (∀ r ∈ moves, r.timestamp ≤ maxTimestamp (moves.map (fun r => r.timestamp)))
    ∧ (undo_organization moveOk (some moves)).restoredCount
        = (List.range (undo_organization moveOk (some moves)).attempted.length).countP
            (fun i => moveOk i) := by
  obtain ⟨m, ms, rfl⟩ := List.exists_cons_of_ne_nil hne
  refine ⟨rfl, ?_, ?_, ?_⟩
  · rw [List.map_cons]
    exact maxTimestamp_mem _ _
  · intro r hr
    have hmem : r.timestamp ∈ (m :: ms).map (fun r => r.timestamp) :=
      List.mem_map_of_mem _ hr
    rw [List.map_cons] at hmem ⊢
    exact maxTimestamp_ge _ _ _ hmem
  · have h0 := undoLoop_eq moveOk
      ((m :: ms).filter
        (fun r => r.timestamp == maxTimestamp ((m :: ms).map (fun r => r.timestamp)))) 0
    show undoLoop moveOk _ 0 = _
    simpa using h0

theorem C6_witness :
    (undo_organization (fun _ => true) (some [recMon, recTue1, recTue2])).attempted
        = [recMon, recTue1, recTue2].filter
            (fun r => r.timestamp ==
              maxTimestamp ([recMon, recTue1, recTue2].map (fun r => r.timestamp)))
    ∧ maxTimestamp ([recMon, recTue1, recTue2].map (fun r => r.timestamp))
        ∈ [recMon, recTue1, recTue2].map (fun r => r.timestamp)
    ∧ recMon.timestamp ≤ maxTimestamp ([recMon, recTue1, recTue2].map (fun r => r.timestamp))
    ∧ (undo_organization (fun _ => true) (some [recMon, recTue1, recTue2])).restoredCount
        = (List.range
            (undo_organization (fun _ => true) (some [recMon, recTue1, recTue2])).attempted.length).countP
            (fun i => (fun _ => true) i) :=
  ⟨(C6_undo_selects_latest_session (fun _ => true) [recMon, recTue1, recTue2] (by decide)).1,
   (C6_undo_selects_latest_session (fun _ => true) [recMon, recTue1, recTue2] (by decide)).2.1,
   (C6_undo_selects_latest_session (fun _ => true) [recMon, recTue1, recTue2]
     (by decide)).2.2.1 recMon (by decide),
   (C6_undo_selects_latest_session (fun _ => true) [recMon, recTue1, recTue2] (by decide)).2.2.2⟩

/-- C7: a missing log file (`none`) and an existing log with zero data rows
(`some []`) both make undo return `restoredCount = 0` with no restore
attempted — no filesystem mutation at all. -/
theorem C7_undo_missing_or_empty_log (moveOk : Nat → Bool) :
    undo_organization moveOk none = { restoredCount := 0, attempted := [] }
    ∧ undo_organization moveOk (some []) = { restoredCount := 0, attempted := [] } :=
  ⟨rfl, rfl⟩

/-- C8: an entry whose `shutil.move` fails is handled inside the entry-level
`except`: nothing is counted, nothing is logged, no exception escapes, and the
loop resumes with the remaining entries — the failure never aborts the
session. -/
theorem C8_move_failure_skips_entry (cfg : Config) (st : LoopState) (e : Entry) (h : String)
    (rest : List Entry) (hsk : entrySkipped cfg e = false) (hh : e.hashResult = some h)
    (hmv : e.moveOk = false) :
    (processEntry cfg st e).2 = none
    ∧ (processEntry cfg st e).1.fileCount = st.fileCount
    ∧ (processEntry cfg st e).1.counts = st.counts
    ∧ (processEntry cfg st e).1.log = st.log
    ∧ processEntries cfg (e :: rest) st = processEntries cfg rest (processEntry cfg st e).1 := by
  have hpe2 : processEntry cfg st e =
      (noteHash { st with originalSize := st.originalSize + e.size } e h, none) := by
    rw [processEntry_hashed cfg st e h hsk hh,
      attemptMove_of_moveOk_false cfg _ e h _ hmv]
  rw [hpe2]
  refine ⟨rfl, ?_, ?_, ?_, ?_⟩
  · simp
  · simp
  · simp
  · exact processEntries_cons_ok cfg e rest st _ hpe2

theorem C8_witness :
    (processEntry cfgA initState entLocked).2 = none
    ∧ (processEntry cfgA initState entLocked).1.fileCount = initState.fileCount
    ∧ (processEntry cfgA initState entLocked).1.counts = initState.counts
    ∧ (processEntry cfgA initState entLocked).1.log = initState.log
    ∧ processEntries cfgA [entLocked, entTxt] initState =
        processEntries cfgA [entTxt] (processEntry cfgA initState entLocked).1 :=
  C8_move_failure_skips_entry cfgA initState entLocked "cc33dd44" [entTxt]
    (by decide) rfl rfl

/-- C9: an entry whose lowercased suffix occurs in no category's extension
list is classified to the catch-all "Others" (classification always yields
one of the table's category names), and on a successful move the appended row
targets the `Others` subfolder of the target directory. -/
theorem C9_unmatched_extension_goes_to_others (cfg : Config) (st : LoopState) (e : Entry)
    (h : String) (hsk : entrySkipped cfg e = false) (hh : e.hashResult = some h)
    (hext : ∀ p ∈ CATEGORIES, pyLower (pySuffix e.name) ∉ p.2) :
    classify (pyLower (pySuffix e.name)) = "Others"
    ∧ (∀ ext, classify ext ∈ CATEGORIES.map (fun p => p.1))
    ∧ (e.moveOk = true →
        (processEntry cfg st e).1.log =
          st.log ++ [mkRecord cfg st.clockIdx e h "Others"]
        ∧ (mkRecord cfg st.clockIdx e h "Others").destination
            = cfg.targetPath ++ "/" ++ "Others" ++ "/" ++ e.name) := by
  have hfind : CATEGORIES.find? (fun p => p.2.contains (pyLower (pySuffix e.name))) = none :=
    List.find?_eq_none.mpr (fun p hp => by simpa using hext p hp)
  have hfc : findCategory (pyLower (pySuffix e.name)) = none := by
    unfold findCategory
    rw [hfind]
    rfl
  have hclass : classify (pyLower (pySuffix e.name)) = "Others" := by
    unfold classify
    rw [hfc]
    rfl
  refine ⟨hclass, ?_, ?_⟩
  · intro ext
    unfold classify
    cases hfc2 : findCategory ext with
    | none =>
      show "Others" ∈ _
      decide
    | some c =>
      show c ∈ _
      unfold findCategory at hfc2
      rcases Option.map_eq_some'.mp hfc2 with ⟨p, hfindp, hp1⟩
      exact hp1 ▸ List.mem_map.mpr ⟨p, List.mem_of_find?_eq_some hfindp, rfl⟩
  · intro hmv
    constructor
    · have hlog := (processEntry_success_log cfg st e h hsk hh hmv).1
      rw [hclass] at hlog
      exact hlog
    · rfl

theorem C9_witness :
    classify (pyLower (pySuffix entOdd.name)) = "Others"
    ∧ classify ".xyz" ∈ CATEGORIES.map (fun p => p.1)
    ∧ ((processEntry cfgA initState entOdd).1.log =
        initState.log ++ [mkRecord cfgA initState.clockIdx entOdd "ee55ff66" "Others"]
      ∧ (mkRecord cfgA initState.clockIdx entOdd "ee55ff66" "Others").destination
          = cfgA.targetPath ++ "/" ++ "Others" ++ "/" ++ entOdd.name) :=
  ⟨(C9_unmatched_extension_goes_to_others cfgA initState entOdd "ee55ff66"
      (by decide) rfl (by decide)).1,
   (C9_unmatched_extension_goes_to_others cfgA initState entOdd "ee55ff66"
      (by decide) rfl (by decide)).2.1 ".xyz",
   (C9_unmatched_extension_goes_to_others cfgA initState entOdd "ee55ff66"
      (by decide) rfl (by decide)).2.2 rfl⟩

/-- C10: the per-category counters the loop accumulates always sum to
`file_count`, every recorded category holds at least one moved file, and on a
normal return the same holds of the returned `categoryCounts`/`filesMoved`. -/
theorem C10_category_counts_sum (cfg : Config) (entries : List Entry) :
    (countsSum (processEntries cfg entries initState).1.counts
        = (processEntries cfg entries initState).1.fileCount
      ∧ ∀ p ∈ (processEntries cfg entries initState).1.counts, 1 ≤ p.2)
    ∧ (∀ out, (organize_files cfg entries).2 = Except.ok out →
        countsSum out.categoryCounts = out.filesMoved
        ∧ ∀ p ∈ out.categoryCounts, 1 ≤ p.2) := by
  have hinv : CountsInv (processEntries cfg entries initState).1 :=
    countsInv_processEntries cfg entries initState ⟨rfl, by simp [initState]⟩
  refine ⟨hinv, ?_⟩
  intro out hout
  obtain ⟨u, h1, h2, h3⟩ := organize_files_ok_inv cfg entries out hout
  have hfst : (processEntries cfg entries initState).1 = (organize_files cfg entries).1 :=
    congrArg Prod.fst h1
  rw [h3]
  constructor
  · show countsSum (organize_files cfg entries).1.counts
        = (organize_files cfg entries).1.fileCount
    rw [← hfst]
    exact hinv.1
  · show ∀ p ∈ (organize_files cfg entries).1.counts, 1 ≤ p.2
    rw [← hfst]
    exact hinv.2

theorem C10_witness :
    countsSum (processEntries cfgA [entTxt, entJpg] initState).1.counts
        = (processEntries cfgA [entTxt, entJpg] initState).1.fileCount
    ∧ countsSum outEmpty.categoryCounts = outEmpty.filesMoved :=
  ⟨(C10_category_counts_sum cfgA [entTxt, entJpg]).1.1,
   ((C10_category_counts_sum cfgA ([] : List Entry)).2 outEmpty (by decide)).1⟩

end FileOrganizer
